import Mathlib

/-!
Shallow embedding of the RandomTvStream clip-pipeline scheduler
(src/util.py, src/playlist.py, src/streamer.py).

Paths are modelled as `String` (file names inside the buffer directory),
wall-clock instants as `Int` (seconds since the Unix epoch; Python uses
floats, but every comparison in the source is against integer constants,
so integer instants are enough to express each claim and its failures).
The contents of the buffer directory are a `List String` (the files that
currently exist); dict `self.timestamps` is an association list.
-/

namespace RandomTvStream

/-- `MAX_QUEUE = 14` from streamer.py. -/
def MAX_QUEUE : Nat := 14

/-- `MIN_QUEUE = 7` from streamer.py. -/
def MIN_QUEUE : Nat := 7

/-- `STALE_SEC = 30` from streamer.py. -/
def STALE_SEC : Int := 30

/-- `BUFFER_CLEANUP_SEC = 120` from streamer.py. -/
def BUFFER_CLEANUP_SEC : Int := 120

/-- `FIFO_PATH = BUFFER_DIR / "mux.ts"` from streamer.py, as a name inside
the buffer directory. -/
def fifoName : String := "mux.ts"

/-! ### util.run_quiet -/

/-- Outcome of `subprocess.run` as seen by `run_quiet`: either the child
process completed with a `returncode` (which the Python API makes negative
when the child was killed by a signal), or `subprocess.TimeoutExpired`
was raised. -/
inductive RunOutcome where
  | completed (returncode : Int)
  | timedOut
deriving DecidableEq

/-- `util.run_quiet`: returns the child returncode, or 124 on
`TimeoutExpired`.  The function never raises for a non-zero exit
status (the model is total). -/
def run_quiet (outcome : RunOutcome) : Int :=
  match outcome with
  | .completed rc => rc
  | .timedOut => 124

/-! ### Python string primitives

Structurally recursive models of the Python string operations the source
uses, over the character lists of Lean strings, so that every claim can
be evaluated on concrete inputs.  Whitespace and lowercasing are
modelled for the ASCII range the playlist data lives in. -/

/-- `a.startswith(b)` / list prefix test. -/
def isPrefixB : List Char → List Char → Bool
  | [], _ => true
  | _ :: _, [] => false
  | x :: xs, y :: ys => x == y && isPrefixB xs ys

/-- Python `b in a` substring test on character lists. -/
def containsSub : List Char → List Char → Bool
  | [], needle => needle.isEmpty
  | h :: t, needle => isPrefixB needle (h :: t) || containsSub t needle

/-- `str.splitlines()`, with `\n` as the line separator. -/
def splitLinesAux : List Char → List (List Char)
  | [] => [[]]
  | c :: rest =>
    let r := splitLinesAux rest
    if c = '\n' then [] :: r
    else (c :: r.headI) :: r.tail

/-- `str.splitlines()` on a string.  Python drops a trailing empty line;
here it is produced and then discarded by the `if line` filter of the
source, which gives the same surviving lines. -/
def pySplitlines (s : String) : List String :=
  (splitLinesAux s.data).map String.mk

/-- `str.strip()`: drop leading and trailing whitespace. -/
def pyStrip (s : String) : String :=
  String.mk (((s.data.dropWhile Char.isWhitespace).reverse.dropWhile
    Char.isWhitespace).reverse)

/-- `a.startswith(b)` on strings. -/
def pyStartsWith (pre s : String) : Bool :=
  isPrefixB pre.data s.data

/-- ASCII `str.lower()` on one character. -/
def asciiLower (c : Char) : Char :=
  if 'A' ≤ c ∧ c ≤ 'Z' then Char.ofNat (c.toNat + 32) else c

/-- ASCII `str.lower()` on a string. -/
def pyLower (s : String) : String :=
  String.mk (s.data.map asciiLower)

/-- Whether a file name matches the glob pattern `*.ts`. -/
def endsWithTs (s : String) : Bool :=
  isPrefixB ".ts".data.reverse s.data.reverse

/-! ### playlist.fetch_m3u_urls -/

/-- The generator condition `all(b not in u.lower() for b in blocklist)`
from playlist.py. -/
def allNotBlocked (blocklist : List String) (u : String) : Bool :=
  blocklist.all (fun b => !(containsSub (pyLower u).data b.data))

/-- The pure core of `playlist.fetch_m3u_urls` on a fetched body:
`raw_urls = [line.strip() for line in r.text.splitlines() if line and not
line.startswith("#")]`, then the blocklist filter when the blocklist is
non-empty.  `random.shuffle` is modelled by quantifying theorems over any
permutation of this list; HTTP failure returns `[]` in the source and is
handled at the reload step. -/
def fetch_m3u_urls (body : String) (blocklist : List String) : List String :=
  let raw_urls := ((pySplitlines body).filter
      (fun line => line ≠ "" && !pyStartsWith "#" line)).map pyStrip
  if blocklist.isEmpty then raw_urls
  else raw_urls.filter (fun u => allNotBlocked blocklist u)

/-- The surviving lines in the words of the spec and claim: the body
parsed one URL per non-empty line not beginning with `#`, stripped, with
blocklisted URLs removed.  Used to compare the source's
`fetch_m3u_urls` against the spec's description of its result. -/
def survivingLines (body : String) (blocklist : List String) : List String :=
  (((pySplitlines body).filter
      (fun line => line ≠ "" && !pyStartsWith "#" line)).map pyStrip).filter
    (fun u => allNotBlocked blocklist u)

/-! ### ClipQueue state -/

/-- State of a `ClipQueue` plus the buffer directory contents:
`q` is `self.q` (FIFO, head = front), `timestamps` is the
`self.timestamps` dict, `last_good` is `self.last_good`, and `files`
is the set of clip files currently on disk. -/
structure QState where
  q : List String
  timestamps : List (String × Int)
  last_good : Option String
  files : List String
deriving DecidableEq

/-- Dict lookup `ts.get(p)` on the timestamps association list. -/
def lookupTs : List (String × Int) → String → Option Int
  | [], _ => none
  | e :: rest, p => if e.1 = p then some e.2 else lookupTs rest p

/-- Dict removal `ts.pop(p, …)` on the timestamps association list. -/
def eraseTs : List (String × Int) → String → List (String × Int)
  | [], _ => []
  | e :: rest, p => if e.1 = p then eraseTs rest p else e :: eraseTs rest p

/-- Dict assignment `ts[p] = t` on the timestamps association list. -/
def insertTs (ts : List (String × Int)) (p : String) (t : Int) : List (String × Int) :=
  (p, t) :: eraseTs ts p

/-- The dequeue loop of `ClipQueue.get`: pop the front, compute
`age = now - timestamps.pop(p, 0)`; if `age > STALE_SEC` unlink the file
and continue, else return the path.  An empty queue models the
`queue.Empty` timeout (result `none`).  Returns
`(result, q, timestamps, files)`. -/
def getAux : List String → List (String × Int) → List String → Int →
    Option String × List String × List (String × Int) × List String
  | [], ts, fs, _ => (none, [], ts, fs)
  | p :: rest, ts, fs, now =>
    if now - (lookupTs ts p).getD 0 > STALE_SEC then
      getAux rest (eraseTs ts p) (fs.erase p) now
    else
      (some p, rest, eraseTs ts p, fs)

/-- `ClipQueue.get`: runs the dequeue loop; on success sets
`self.last_good = p` before returning. -/
def ClipQueue.get (st : QState) (now : Int) : Option String × QState :=
  match getAux st.q st.timestamps st.files now with
  | (none, q', ts', fs') =>
      (none, { st with q := q', timestamps := ts', files := fs' })
  | (some p, q', ts', fs') =>
      (some p, { q := q', timestamps := ts', last_good := some p, files := fs' })

/-- `ClipQueue.put`: `self.q.put(path, timeout=timeout)` then
`self.timestamps[path] = time.time()`.  With the queue at capacity the
`put` raises `queue.Full` after the timeout, before the timestamp
assignment, so the error case carries no state change. -/
def ClipQueue.put (cap : Nat) (st : QState) (p : String) (now : Int) :
    Except Unit QState :=
  if cap ≤ st.q.length then .error ()
  else .ok { st with q := st.q ++ [p], timestamps := insertTs st.timestamps p now }

/-- `ClipQueue.size`. -/
def ClipQueue.size (st : QState) : Nat := st.q.length

/-- `ClipQueue.last`. -/
def ClipQueue.last (st : QState) : Option String := st.last_good

/-- One pass of `ClipQueue._cleanup_loop`: popleft every entry; entries
with `now - timestamps.get(p, 0) > STALE_SEC` are removed (timestamp
popped, file unlinked), fresh entries are re-appended in order. -/
def sweepAux : List String → List (String × Int) → List String → Int →
    List String × List (String × Int) × List String
  | [], ts, fs, _ => ([], ts, fs)
  | p :: rest, ts, fs, now =>
    if now - (lookupTs ts p).getD 0 > STALE_SEC then
      sweepAux rest (eraseTs ts p) (fs.erase p) now
    else
      let r := sweepAux rest ts fs now
      (p :: r.1, r.2.1, r.2.2)

/-- One sweeper cycle over a `ClipQueue` state. -/
def ClipQueue.sweep (st : QState) (now : Int) : QState :=
  let r := sweepAux st.q st.timestamps st.files now
  { st with q := r.1, timestamps := r.2.1, files := r.2.2 }

/-- The enqueue step of `worker_thread` after a successful capture:
`try: cq.put(clip_path, timeout=5) except queue.Full:
clip_path.unlink(missing_ok=True)`. -/
def workerEnqueue (cap : Nat) (st : QState) (p : String) (now : Int) : QState :=
  match ClipQueue.put cap st p now with
  | .ok st' => st'
  | .error _ => { st with files := st.files.erase p }

/-! ### buffer_monitor -/

/-- One tick of `buffer_monitor`: `pause_evt.set() if buf_size >= MAX_QUEUE
else pause_evt.clear() if buf_size <= MIN_QUEUE else None`, as a function
from the current paused flag and queue size to the new paused flag. -/
def buffer_monitor_tick (paused : Bool) (size : Nat) : Bool :=
  if MAX_QUEUE ≤ size then true
  else if size ≤ MIN_QUEUE then false
  else paused

/-- Number of times the paused flag changes value while the monitor
processes a list of observed queue sizes, starting from `paused`. -/
def togglesFrom (paused : Bool) : List Nat → Nat
  | [] => 0
  | s :: rest =>
    let p := buffer_monitor_tick paused s
    (if p = paused then 0 else 1) + togglesFrom p rest

/-! ### cleanup_buffer (janitor) -/

/-- The referenced set of `cleanup_buffer`: `queued = set(); with
cq.q.mutex: queued.update(cq.q.queue); last = cq.last(); if last:
queued.add(last)`. -/
def referenced (queued : List String) (lastGood : Option String) : List String :=
  match lastGood with
  | some l => queued ++ [l]
  | none => queued

/-- The per-file scan of one `cleanup_buffer` cycle over the globbed
files: skip referenced files and the named channel; `clip.stat()` raising
`FileNotFoundError` (modelled as mtime `none`, a file that vanished
mid-scan) continues; otherwise unlink when the mtime age exceeds the
threshold.  Returns the list of unlinked paths. -/
def cleanupScanAux (queued : List String) (lastGood : Option String) (now : Int) :
    List (String × Option Int) → List String
  | [] => []
  | (c, mt) :: rest =>
    if c ∉ referenced queued lastGood ∧ c ≠ fifoName then
      match mt with
      | none => cleanupScanAux queued lastGood now rest
      | some m =>
        if now - m > BUFFER_CLEANUP_SEC then
          c :: cleanupScanAux queued lastGood now rest
        else
          cleanupScanAux queued lastGood now rest
    else
      cleanupScanAux queued lastGood now rest

/-- One cycle of `cleanup_buffer`: iterate over
`BUFFER_DIR.glob("*.ts")` (directory entries whose name ends in `.ts`,
paired with their observed mtime, or `none` if the file vanished before
`stat`) and unlink the orphaned ones.  Returns the unlinked paths. -/
def cleanup_buffer_cycle (queued : List String) (lastGood : Option String) (now : Int)
    (dir : List (String × Option Int)) : List String :=
  cleanupScanAux queued lastGood now (dir.filter (fun f => endsWithTs f.1))

/-- The deletion condition applied by the scan to a globbed entry:
unreferenced, not the named channel, still present, and old enough. -/
def scanDel (queued : List String) (lastGood : Option String) (now : Int)
    (f : String × Option Int) : Bool :=
  (decide (f.1 ∉ referenced queued lastGood) && (f.1 != fifoName)) &&
    (match f.2 with
     | none => false
     | some m => decide (now - m > BUFFER_CLEANUP_SEC))

/-- The declarative orphan condition of the spec: a directory entry is
deleted iff it is a `*.ts` file, unreferenced, not the named channel,
still present, and its mtime age exceeds `BUFFER_CLEANUP_SEC`. -/
def orphaned (queued : List String) (lastGood : Option String) (now : Int)
    (f : String × Option Int) : Bool :=
  endsWithTs f.1 && scanDel queued lastGood now f

/-! ### reader_thread (pusher) -/

/-- What one iteration of the pusher streaming loop did. -/
inductive MuxAction where
  | streamed (p : String)
  | skippedMissing (p : String)
  | repeatedLast (p : String)
  | slept
deriving DecidableEq

/-- One iteration of the streaming loop in `reader_thread`:
`clip_path = cq.get(timeout=5)`; on `None`, repeat `cq.last()` into the
channel if it is set and its file exists, else sleep 1s; on a clip,
stream its bytes and unlink it if it still exists, else log and skip.
`content p` are the bytes of file `p`; the 1 MiB chunking of the source
writes exactly these bytes in order.  Returns the new state, the channel
bytes, and the action taken. -/
def pusherIter (content : String → List Nat) (st : QState) (chan : List Nat)
    (now : Int) : QState × List Nat × MuxAction :=
  match ClipQueue.get st now with
  | (none, st') =>
    match ClipQueue.last st' with
    | some l =>
      if l ∈ st'.files then (st', chan ++ content l, .repeatedLast l)
      else (st', chan, .slept)
    | none => (st', chan, .slept)
  | (some p, st') =>
    if p ∈ st'.files then
      ({ st' with files := st'.files.erase p }, chan ++ content p, .streamed p)
    else (st', chan, .skippedMissing p)

/-! ### reload_playlist_at_midnight -/

/-- The body of `reload_playlist_at_midnight` after the sleep:
`urls = fetch_m3u_urls(...)`; `if urls: holder["urls"] = urls`; any
exception is caught and logged, leaving the holder untouched.
`fetched` is `.error ()` when reading the playlist URL or fetching
raised, and `.ok urls` otherwise (an HTTP failure inside
`fetch_m3u_urls` yields `.ok []`). -/
def reloadStep (holder : List String) (fetched : Except Unit (List String)) :
    List String :=
  match fetched with
  | .error _ => holder
  | .ok urls => if urls.isEmpty then holder else urls

/-! ## Helper lemmas -/

theorem tick_false_lt (s : Nat) (h : s < MAX_QUEUE) :
    buffer_monitor_tick false s = false := by
  unfold buffer_monitor_tick
  rw [if_neg (by omega)]
  split <;> rfl

theorem tick_false_ge (s : Nat) (h : MAX_QUEUE ≤ s) :
    buffer_monitor_tick false s = true := by
  unfold buffer_monitor_tick
  rw [if_pos h]

theorem tick_true_gt (s : Nat) (h : MIN_QUEUE < s) :
    buffer_monitor_tick true s = true := by
  unfold buffer_monitor_tick
  by_cases h14 : MAX_QUEUE ≤ s
  · rw [if_pos h14]
  · rw [if_neg h14, if_neg (by omega)]

theorem tick_true_le (s : Nat) (h : s ≤ MIN_QUEUE) :
    buffer_monitor_tick true s = false := by
  unfold buffer_monitor_tick
  rw [if_neg (by unfold MAX_QUEUE; unfold MIN_QUEUE at h; omega), if_pos h]

theorem togglesFrom_false_stays (L : List Nat) (h : ∀ x ∈ L, x < MAX_QUEUE) :
    togglesFrom false L = 0 := by
  induction L with
  | nil => rfl
  | cons s rest ih =>
    have hs : s < MAX_QUEUE := h s (List.mem_cons_self _ _)
    simp only [togglesFrom, tick_false_lt s hs]
    simpa using ih fun x hx => h x (List.mem_cons_of_mem _ hx)

theorem togglesFrom_true_stays (L : List Nat) (h : ∀ x ∈ L, MIN_QUEUE < x) :
    togglesFrom true L = 0 := by
  induction L with
  | nil => rfl
  | cons s rest ih =>
    have hs : MIN_QUEUE < s := h s (List.mem_cons_self _ _)
    simp only [togglesFrom, tick_true_gt s hs]
    simpa using ih fun x hx => h x (List.mem_cons_of_mem _ hx)

theorem rise_once (L : List Nat) (hs : L.Sorted (· ≤ ·))
    (hl : L.getLast? = some MAX_QUEUE) : togglesFrom false L = 1 := by
  induction L with
  | nil => simp at hl
  | cons s rest ih =>
    rw [List.sorted_cons] at hs
    obtain ⟨hall, hrest⟩ := hs
    by_cases h14 : MAX_QUEUE ≤ s
    · simp only [togglesFrom, tick_false_ge s h14]
      have hz : togglesFrom true rest = 0 := togglesFrom_true_stays rest
        (fun x hx => by have := hall x hx; unfold MIN_QUEUE; unfold MAX_QUEUE at h14; omega)
      simp [hz]
    · cases rest with
      | nil =>
        simp only [List.getLast?_singleton, Option.some.injEq] at hl
        omega
      | cons b bs =>
        rw [List.getLast?_cons_cons] at hl
        simp only [togglesFrom, tick_false_lt s (by omega)]
        simpa using ih hrest hl

theorem fall_once (L : List Nat) (hs : L.Sorted (· ≥ ·))
    (hl : L.getLast? = some 0) : togglesFrom true L = 1 := by
  induction L with
  | nil => simp at hl
  | cons s rest ih =>
    rw [List.sorted_cons] at hs
    obtain ⟨hall, hrest⟩ := hs
    by_cases h7 : s ≤ MIN_QUEUE
    · simp only [togglesFrom, tick_true_le s h7]
      have hz : togglesFrom false rest = 0 := togglesFrom_false_stays rest
        (fun x hx => by
          have := hall x hx
          unfold MAX_QUEUE
          unfold MIN_QUEUE at h7
          omega)
      simp [hz]
    · cases rest with
      | nil =>
        simp only [List.getLast?_singleton, Option.some.injEq] at hl
        omega
      | cons b bs =>
        rw [List.getLast?_cons_cons] at hl
        simp only [togglesFrom, tick_true_gt s (by omega)]
        simpa using ih hrest hl

theorem lookupTs_eraseTs (ts : List (String × Int)) (p h : String) (hne : p ≠ h) :
    lookupTs (eraseTs ts h) p = lookupTs ts p := by
  induction ts with
  | nil => rfl
  | cons e rest ih =>
    by_cases he : e.1 = h
    · rw [eraseTs, if_pos he, ih, lookupTs, if_neg (by rw [he]; exact fun hx => hne hx.symm)]
    · rw [eraseTs, if_neg he, lookupTs, lookupTs]
      by_cases hep : e.1 = p
      · rw [if_pos hep, if_pos hep]
      · rw [if_neg hep, if_neg hep, ih]

theorem eraseTs_of_lookupTs_none (ts : List (String × Int)) (p : String)
    (h : lookupTs ts p = none) : eraseTs ts p = ts := by
  induction ts with
  | nil => rfl
  | cons e rest ih =>
    rw [lookupTs] at h
    by_cases hep : e.1 = p
    · rw [if_pos hep] at h
      exact absurd h (by simp)
    · rw [if_neg hep] at h
      rw [eraseTs, if_neg hep, ih h]

theorem getAux_mem (q : List String) :
    ∀ (ts : List (String × Int)) (fs : List String) (now : Int) (p : String)
      (q' : List String) (ts' : List (String × Int)) (fs' : List String),
      getAux q ts fs now = (some p, q', ts', fs') → p ∈ q := by
  induction q with
  | nil =>
    intro ts fs now p q' ts' fs' h
    simp [getAux] at h
  | cons a rest ih =>
    intro ts fs now p q' ts' fs' h
    rw [getAux] at h
    split at h
    · exact List.mem_cons_of_mem _ (ih _ _ _ _ _ _ _ h)
    · simp only [Prod.mk.injEq, Option.some.injEq] at h
      exact h.1 ▸ List.mem_cons_self _ _

theorem getAux_fresh (q : List String) :
    ∀ (ts : List (String × Int)) (fs : List String) (now : Int) (p : String)
      (q' : List String) (ts' : List (String × Int)) (fs' : List String),
      q.Nodup → getAux q ts fs now = (some p, q', ts', fs') →
      now - (lookupTs ts p).getD 0 ≤ STALE_SEC := by
  induction q with
  | nil =>
    intro ts fs now p q' ts' fs' _ h
    simp [getAux] at h
  | cons a rest ih =>
    intro ts fs now p q' ts' fs' hnd h
    rw [List.nodup_cons] at hnd
    rw [getAux] at h
    split at h
    · have hmem : p ∈ rest := getAux_mem rest _ _ _ _ _ _ _ h
      have hne : p ≠ a := fun he => hnd.1 (he ▸ hmem)
      have := ih _ _ _ _ _ _ _ hnd.2 h
      rwa [lookupTs_eraseTs _ _ _ hne] at this
    · rename_i hcond
      simp only [Prod.mk.injEq, Option.some.injEq] at h
      rw [← h.1]
      omega

theorem get_empty (st : QState) (now : Int) (hq : st.q = []) :
    ClipQueue.get st now = (none, st) := by
  obtain ⟨q, ts, lg, fs⟩ := st
  simp only at hq
  subst hq
  rfl

theorem get_stale_step (st : QState) (now : Int) (p : String) (rest : List String)
    (hq : st.q = p :: rest)
    (hstale : now - (lookupTs st.timestamps p).getD 0 > STALE_SEC) :
    ClipQueue.get st now =
      ClipQueue.get ⟨rest, eraseTs st.timestamps p, st.last_good, st.files.erase p⟩ now := by
  have h1 : getAux st.q st.timestamps st.files now
      = getAux rest (eraseTs st.timestamps p) (st.files.erase p) now := by
    rw [hq, getAux, if_pos hstale]
  unfold ClipQueue.get
  rw [h1]

theorem get_last_good_some (st : QState) (now : Int) (p : String) (st' : QState)
    (h : ClipQueue.get st now = (some p, st')) : st'.last_good = some p := by
  unfold ClipQueue.get at h
  rcases haux : getAux st.q st.timestamps st.files now with ⟨res, q', ts', fs'⟩
  rw [haux] at h
  cases res with
  | none => simp at h
  | some r =>
    simp only [Prod.mk.injEq, Option.some.injEq] at h
    rw [← h.2]
    exact congrArg some h.1

theorem get_last_good_none (st : QState) (now : Int) (st' : QState)
    (h : ClipQueue.get st now = (none, st')) : st'.last_good = st.last_good := by
  unfold ClipQueue.get at h
  rcases haux : getAux st.q st.timestamps st.files now with ⟨res, q', ts', fs'⟩
  rw [haux] at h
  cases res with
  | none =>
    simp only [Prod.mk.injEq] at h
    rw [← h.2]
  | some r => simp at h

theorem get_fresh (st : QState) (now : Int) (p : String) (st' : QState)
    (hnd : st.q.Nodup) (h : ClipQueue.get st now = (some p, st')) :
    now - (lookupTs st.timestamps p).getD 0 ≤ STALE_SEC := by
  unfold ClipQueue.get at h
  rcases haux : getAux st.q st.timestamps st.files now with ⟨res, q', ts', fs'⟩
  rw [haux] at h
  cases res with
  | none => simp at h
  | some r =>
    simp only [Prod.mk.injEq, Option.some.injEq] at h
    exact h.1 ▸ getAux_fresh st.q _ _ _ _ _ _ _ hnd haux

/-! ## Claim theorems -/

/-- C5 counterexample: the claim says `run_quiet` returns a non-negative
exit status and returns 124 exactly on timeout.  A child killed by
SIGKILL completes with returncode `-9`, which `run_quiet` returns
unchanged, and a child that itself exits with status 124 makes
`run_quiet` return 124 with no timeout having expired. -/
theorem C5_counterexample :
    run_quiet (.completed (-9)) = -9 ∧ run_quiet (.completed (-9)) < 0 ∧
      run_quiet (.completed 124) = 124 := by
  refine ⟨rfl, by norm_num [run_quiet], rfl⟩

/-- C5 (amended): `run_quiet` returns the child's integer exit status
unchanged — negative when the child was killed by a signal, and equal to
124 even without a timeout when the child itself exits 124 — returns 124
whenever the wall-clock timeout expires, and does not raise for a
non-zero child exit status (it is total on every outcome). -/
theorem C5_run_quiet_amended :
    (∀ rc : Int, run_quiet (.completed rc) = rc) ∧ run_quiet .timedOut = 124 :=
  ⟨fun _ => rfl, rfl⟩

/-- C9: when the midnight reload's fetch fails (raises) or returns an
empty list, the URL holder keeps exactly its previous value; on a
successful non-empty fetch the pool is replaced wholesale by the new
list, so every observable value of the holder is either the entire old
list or the entire new list. -/
theorem C9_reload_frame :
    (∀ holder : List String, reloadStep holder (.error ()) = holder) ∧
    (∀ holder : List String, reloadStep holder (.ok []) = holder) ∧
    (∀ (holder urls : List String), urls ≠ [] → reloadStep holder (.ok urls) = urls) ∧
    (∀ (holder : List String) (fetched : Except Unit (List String)),
      reloadStep holder fetched = holder ∨
        ∃ urls, fetched = .ok urls ∧ urls ≠ [] ∧ reloadStep holder fetched = urls) := by
  refine ⟨fun _ => rfl, fun _ => rfl, ?_, ?_⟩
  · intro holder urls h
    simp [reloadStep, h]
  · intro holder fetched
    match fetched with
    | .error _ => exact Or.inl rfl
    | .ok urls =>
      by_cases h : urls = []
      · subst h; exact Or.inl rfl
      · exact Or.inr ⟨urls, rfl, h, by simp [reloadStep, h]⟩

/-- C9 witness at concrete inputs. -/
theorem C9_reload_frame_witness :
    reloadStep ["old"] (.ok ["new1", "new2"]) = ["new1", "new2"] :=
  C9_reload_frame.2.2.1 ["old"] ["new1", "new2"] (by simp)

/-- C4: each monitor tick sets pause iff the queue size is at least
`MAX_QUEUE` (14), clears it iff the size is at most `MIN_QUEUE` (7), and
leaves it unchanged strictly in between; consequently, starting not
paused, a monotone rise of the observed sizes from 0 to 14 toggles the
flag exactly once, and a monotone fall from 14 back to 0 toggles it off
exactly once. -/
theorem C4_backpressure_hysteresis :
    (∀ (p : Bool) (s : Nat), MAX_QUEUE ≤ s → buffer_monitor_tick p s = true) ∧
    (∀ (p : Bool) (s : Nat), s ≤ MIN_QUEUE → buffer_monitor_tick p s = false) ∧
    (∀ (p : Bool) (s : Nat), MIN_QUEUE < s → s < MAX_QUEUE →
      buffer_monitor_tick p s = p) ∧
    (∀ L : List Nat, L.Sorted (· ≤ ·) → L.head? = some 0 →
      L.getLast? = some MAX_QUEUE → togglesFrom false L = 1) ∧
    (∀ L : List Nat, L.Sorted (· ≥ ·) → L.head? = some MAX_QUEUE →
      L.getLast? = some 0 → togglesFrom true L = 1) := by
  refine ⟨?_, ?_, ?_, ?_, ?_⟩
  · intro p s h
    unfold buffer_monitor_tick
    rw [if_pos h]
  · intro p s h
    unfold buffer_monitor_tick
    rw [if_neg (by unfold MAX_QUEUE; unfold MIN_QUEUE at h; omega), if_pos h]
  · intro p s h7 h14
    unfold buffer_monitor_tick
    rw [if_neg (by omega), if_neg (by omega)]
  · intro L hs _ hl
    exact rise_once L hs hl
  · intro L hs _ hl
    exact fall_once L hs hl

/-- C4 witness: concrete monotone rise and fall traces toggle once each. -/
theorem C4_backpressure_hysteresis_witness :
    buffer_monitor_tick false 14 = true ∧
      togglesFrom false [0, 3, 7, 9, 13, 14] = 1 ∧
      togglesFrom true [14, 13, 9, 8, 7, 3, 0] = 1 :=
  ⟨C4_backpressure_hysteresis.1 false 14 (by norm_num [MAX_QUEUE]),
   C4_backpressure_hysteresis.2.2.2.1 [0, 3, 7, 9, 13, 14] (by decide) rfl rfl,
   C4_backpressure_hysteresis.2.2.2.2 [14, 13, 9, 8, 7, 3, 0] (by decide) rfl rfl⟩

/-- C3: with distinct queued paths, every clip returned by
`ClipQueue.get` is at most `STALE_SEC` old at the moment of return; a
dequeued entry whose age exceeds `STALE_SEC` is never returned — its
file is unlinked, its timestamp entry removed, and the loop continues on
the remaining queue; and `get` returns `none` when the underlying wait
times out (the queue stays empty for the whole timeout). -/
theorem C3_stale_on_dequeue :
    (∀ (st : QState) (now : Int) (p : String) (st' : QState), st.q.Nodup →
      ClipQueue.get st now = (some p, st') →
      now - (lookupTs st.timestamps p).getD 0 ≤ STALE_SEC) ∧
    (∀ (st : QState) (now : Int) (p : String) (rest : List String),
      st.q = p :: rest → now - (lookupTs st.timestamps p).getD 0 > STALE_SEC →
      ClipQueue.get st now =
        ClipQueue.get ⟨rest, eraseTs st.timestamps p, st.last_good,
          st.files.erase p⟩ now) ∧
    (∀ (st : QState) (now : Int), st.q = [] → ClipQueue.get st now = (none, st)) :=
  ⟨fun st now p st' hnd h => get_fresh st now p st' hnd h,
   fun st now p rest hq hstale => get_stale_step st now p rest hq hstale,
   fun st now hq => get_empty st now hq⟩

/-- C3 witness: a fresh clip is returned within the stale bound, a stale
head is skipped (unlinked and discarded) before the next entry is
returned, and an empty queue yields `none`. -/
theorem C3_stale_on_dequeue_witness :
    (100 - (lookupTs [("a", 90)] "a").getD 0 ≤ STALE_SEC) ∧
    ClipQueue.get ⟨["old", "b"], [("old", 10), ("b", 95)], none, ["old", "b"]⟩ 100 =
      ClipQueue.get ⟨["b"], [("b", 95)], none, ["b"]⟩ 100 ∧
    ClipQueue.get ⟨[], [("x", 1)], some "x", []⟩ 100 =
      (none, ⟨[], [("x", 1)], some "x", []⟩) :=
  ⟨C3_stale_on_dequeue.1 ⟨["a"], [("a", 90)], none, ["a"]⟩ 100 "a"
      ⟨[], [], some "a", ["a"]⟩ (by decide) (by decide),
   C3_stale_on_dequeue.2.1 ⟨["old", "b"], [("old", 10), ("b", 95)], none, ["old", "b"]⟩
      100 "old" ["b"] rfl (by decide),
   C3_stale_on_dequeue.2.2 ⟨[], [("x", 1)], some "x", []⟩ 100 rfl⟩

/-- C10: a dequeued path with no entry in the timestamps map gets age
`now - 0`; whenever the wall clock is past `STALE_SEC` seconds after the
epoch (always, in a real run), the clip is classified stale — its file
is unlinked, the (absent) entry is discarded, the loop continues on the
remaining queue — and an untimestamped clip is never the returned one. -/
theorem C10_untimestamped_is_stale :
    (∀ (st : QState) (now : Int) (p : String) (rest : List String),
      STALE_SEC < now → st.q = p :: rest → lookupTs st.timestamps p = none →
      ClipQueue.get st now =
        ClipQueue.get ⟨rest, st.timestamps, st.last_good, st.files.erase p⟩ now) ∧
    (∀ (st : QState) (now : Int) (r : String) (st' : QState),
      STALE_SEC < now → st.q.Nodup → ClipQueue.get st now = (some r, st') →
      lookupTs st.timestamps r ≠ none) := by
  constructor
  · intro st now p rest hnow hq hnone
    have hstale : now - (lookupTs st.timestamps p).getD 0 > STALE_SEC := by
      rw [hnone]
      simpa using hnow
    have := get_stale_step st now p rest hq hstale
    rwa [eraseTs_of_lookupTs_none st.timestamps p hnone] at this
  · intro st now r st' hnow hnd h hnone
    have hfresh := get_fresh st now r st' hnd h
    rw [hnone] at hfresh
    simp only [Option.getD_none, sub_zero] at hfresh
    omega

/-- C10 witness: at `now = 100`, an untimestamped head is skipped with
its file unlinked, and the following timestamped clip is the one
returned. -/
theorem C10_untimestamped_is_stale_witness :
    ClipQueue.get ⟨["z", "b"], [("b", 95)], none, ["z", "b"]⟩ 100 =
      ClipQueue.get ⟨["b"], [("b", 95)], none, ["b"]⟩ 100 ∧
    lookupTs [("b", 95)] "b" ≠ none :=
  ⟨C10_untimestamped_is_stale.1 ⟨["z", "b"], [("b", 95)], none, ["z", "b"]⟩ 100 "z"
      ["b"] (by decide) rfl rfl,
   C10_untimestamped_is_stale.2 ⟨["b"], [("b", 95)], none, ["b"]⟩ 100 "b"
      ⟨[], [], some "b", ["b"]⟩ (by decide) (by decide) (by decide)⟩

/-- C8: after any successful `get` returning clip `p`, `last()` returns
`p`'s path; a timed-out `get` leaves `last_good` unchanged, and neither
`put` nor the sweeper nor the stale discards of an unsuccessful `get`
ever set it; `last()` always reads the `last_good` slot. -/
theorem C8_last_good_tracking :
    (∀ (st : QState) (now : Int) (p : String) (st' : QState),
      ClipQueue.get st now = (some p, st') →
      st'.last_good = some p ∧ ClipQueue.last st' = some p) ∧
    (∀ (st : QState) (now : Int) (st' : QState),
      ClipQueue.get st now = (none, st') → st'.last_good = st.last_good) ∧
    (∀ (cap : Nat) (st : QState) (p : String) (now : Int) (st' : QState),
      ClipQueue.put cap st p now = .ok st' → st'.last_good = st.last_good) ∧
    (∀ (st : QState) (now : Int), (ClipQueue.sweep st now).last_good = st.last_good) ∧
    (∀ st : QState, ClipQueue.last st = st.last_good) := by
  refine ⟨?_, ?_, ?_, fun st now => rfl, fun st => rfl⟩
  · intro st now p st' h
    have := get_last_good_some st now p st' h
    exact ⟨this, this⟩
  · exact get_last_good_none
  · intro cap st p now st' h
    unfold ClipQueue.put at h
    split at h
    · exact absurd h (by simp)
    · simp only [Except.ok.injEq] at h
      rw [← h]

/-- C8 witness: a successful dequeue sets `last_good`; a timed-out one,
a `put`, and a sweep leave it alone. -/
theorem C8_last_good_tracking_witness :
    (QState.last_good ⟨[], [], some "a", ["a"]⟩ = some "a" ∧
      ClipQueue.last ⟨[], [], some "a", ["a"]⟩ = some "a") ∧
    QState.last_good ⟨["p"], [("p", 5)], some "x", []⟩ = some "x" :=
  ⟨C8_last_good_tracking.1 ⟨["a"], [("a", 90)], none, ["a"]⟩ 100 "a"
      ⟨[], [], some "a", ["a"]⟩ (by decide),
   C8_last_good_tracking.2.2.1 14 ⟨[], [], some "x", []⟩ "p" 5
      ⟨["p"], [("p", 5)], some "x", []⟩ rfl⟩

/-- C6: `put` fails with QueueFull exactly when the queue is at capacity
for the whole timeout, and the failure leaves every part of the state
unchanged (the exception is raised before the timestamp assignment); a
successful `put` appends the clip and records `enqueued_at = now` for it
while touching nothing else; and a worker whose `put` fails unlinks the
freshly captured clip file. -/
theorem C6_put_full :
    (∀ (cap : Nat) (st : QState) (p : String) (now : Int),
      ClipQueue.put cap st p now = .error () ↔ cap ≤ st.q.length) ∧
    (∀ (cap : Nat) (st : QState) (p : String) (now : Int) (st' : QState),
      ClipQueue.put cap st p now = .ok st' →
      st'.q = st.q ++ [p] ∧ lookupTs st'.timestamps p = some now ∧
        st'.files = st.files ∧ st'.last_good = st.last_good) ∧
    (∀ (cap : Nat) (st : QState) (p : String) (now : Int), cap ≤ st.q.length →
      workerEnqueue cap st p now = ⟨st.q, st.timestamps, st.last_good,
        st.files.erase p⟩) := by
  refine ⟨?_, ?_, ?_⟩
  · intro cap st p now
    unfold ClipQueue.put
    constructor
    · intro h
      by_contra hc
      rw [if_neg hc] at h
      exact absurd h (by simp)
    · intro h
      rw [if_pos h]
  · intro cap st p now st' h
    unfold ClipQueue.put at h
    split at h
    · exact absurd h (by simp)
    · simp only [Except.ok.injEq] at h
      rw [← h]
      refine ⟨rfl, ?_, rfl, rfl⟩
      simp [insertTs, lookupTs]
  · intro cap st p now hfull
    unfold workerEnqueue ClipQueue.put
    rw [if_pos hfull]

/-- C6 witness: a `put` on a full 14-slot queue fails and the worker
unlinks the clip; a `put` with room appends and timestamps the clip. -/
theorem C6_put_full_witness :
    (ClipQueue.put 14 ⟨List.replicate 14 "x", [], none, []⟩ "p" 5 = .error () ↔
      14 ≤ (List.replicate 14 "x").length) ∧
    (QState.q ⟨["p"], [("p", 5)], none, []⟩ = [] ++ ["p"] ∧
      lookupTs [("p", 5)] "p" = some 5 ∧
      QState.files ⟨["p"], [("p", 5)], none, []⟩ = [] ∧
      QState.last_good ⟨["p"], [("p", 5)], none, []⟩ = none) ∧
    workerEnqueue 14 ⟨List.replicate 14 "x", [], none, ["p"]⟩ "p" 5 =
      ⟨List.replicate 14 "x", [], none, (["p"] : List String).erase "p"⟩ :=
  ⟨C6_put_full.1 14 ⟨List.replicate 14 "x", [], none, []⟩ "p" 5,
   C6_put_full.2.1 14 ⟨[], [], none, []⟩ "p" 5 ⟨["p"], [("p", 5)], none, []⟩ rfl,
   C6_put_full.2.2 14 ⟨List.replicate 14 "x", [], none, ["p"]⟩ "p" 5 (by decide)⟩

theorem cleanupScanAux_eq_filter (queued : List String) (lastGood : Option String)
    (now : Int) (L : List (String × Option Int)) :
    cleanupScanAux queued lastGood now L
      = (L.filter (scanDel queued lastGood now)).map Prod.fst := by
  induction L with
  | nil => rfl
  | cons f rest ih =>
    obtain ⟨c, mt⟩ := f
    by_cases h1 : c ∉ referenced queued lastGood ∧ c ≠ fifoName
    · rw [cleanupScanAux.eq_def]
      simp only []
      rw [if_pos h1]
      cases mt with
      | none =>
        have hp : scanDel queued lastGood now (c, none) = false := by
          simp [scanDel]
        rw [List.filter_cons, hp]
        exact ih
      | some m =>
        by_cases h2 : now - m > BUFFER_CLEANUP_SEC
        · have hp : scanDel queued lastGood now (c, some m) = true := by
            simp [scanDel, h1.1, h1.2, h2]
          dsimp only
          rw [if_pos h2, List.filter_cons, hp]
          simpa using ih
        · have hp : scanDel queued lastGood now (c, some m) = false := by
            simp [scanDel, h2]
          dsimp only
          rw [if_neg h2, List.filter_cons, hp]
          exact ih
    · have hp : scanDel queued lastGood now (c, mt) = false := by
        rw [not_and_or] at h1
        rcases h1 with h1 | h1
        · rw [not_not] at h1
          simp [scanDel, h1]
        · rw [ne_eq, not_not] at h1
          simp [scanDel, h1]
      rw [cleanupScanAux.eq_def]
      simp only []
      rw [if_neg h1, List.filter_cons, hp]
      exact ih

theorem scanDel_parts (queued : List String) (lastGood : Option String) (now : Int)
    (f : String × Option Int) (h : scanDel queued lastGood now f = true) :
    f.1 ∉ referenced queued lastGood ∧ f.1 ≠ fifoName := by
  rw [scanDel, Bool.and_eq_true] at h
  obtain ⟨h1, _⟩ := h
  rw [Bool.and_eq_true, decide_eq_true_eq, bne_iff_ne] at h1
  exact h1

theorem scanDel_none (queued : List String) (lastGood : Option String) (now : Int)
    (c : String) : scanDel queued lastGood now (c, none) = false := by
  simp [scanDel]

theorem mem_cleanup_iff (queued : List String) (lastGood : Option String)
    (now : Int) (dir : List (String × Option Int)) (u : String) :
    u ∈ cleanup_buffer_cycle queued lastGood now dir ↔
      ∃ mt, (u, mt) ∈ dir ∧ orphaned queued lastGood now (u, mt) = true := by
  unfold cleanup_buffer_cycle
  rw [cleanupScanAux_eq_filter]
  constructor
  · intro h
    obtain ⟨f, hf, hfu⟩ := List.mem_map.mp h
    obtain ⟨hfg, hdel⟩ := List.mem_filter.mp hf
    obtain ⟨hdir, hts⟩ := List.mem_filter.mp hfg
    obtain ⟨c, mt⟩ := f
    have hcu : c = u := hfu
    subst hcu
    refine ⟨mt, hdir, ?_⟩
    rw [orphaned, Bool.and_eq_true]
    exact ⟨hts, hdel⟩
  · rintro ⟨mt, hmem, horph⟩
    rw [orphaned, Bool.and_eq_true] at horph
    exact List.mem_map.mpr ⟨(u, mt),
      List.mem_filter.mpr ⟨List.mem_filter.mpr ⟨hmem, horph.1⟩, horph.2⟩, rfl⟩

/-- C7: in a janitor cycle, a `*.ts` entry of the buffer directory is
unlinked iff it is not referenced (queue contents plus `last_good`), is
not the named transport channel, and its observed mtime age exceeds
`BUFFER_CLEANUP_SEC`; in particular the janitor never deletes a queued
clip, the current last-good path, or the named channel, and an entry
that vanished before its `stat` (mtime `none`) is silently skipped. -/
theorem C7_janitor_safety :
    (∀ (queued : List String) (lastGood : Option String) (now : Int)
        (dir : List (String × Option Int)) (u : String),
      u ∈ cleanup_buffer_cycle queued lastGood now dir ↔
        ∃ mt, (u, mt) ∈ dir ∧ orphaned queued lastGood now (u, mt) = true) ∧
    (∀ (queued : List String) (lastGood : Option String) (now : Int)
        (dir : List (String × Option Int)) (u : String),
      u ∈ referenced queued lastGood →
        u ∉ cleanup_buffer_cycle queued lastGood now dir) ∧
    (∀ (queued : List String) (lastGood : Option String) (now : Int)
        (dir : List (String × Option Int)),
      fifoName ∉ cleanup_buffer_cycle queued lastGood now dir) ∧
    (∀ (queued : List String) (lastGood : Option String) (now : Int)
        (dir : List (String × Option Int)) (u : String),
      (∀ mt, (u, mt) ∈ dir → mt = none) →
        u ∉ cleanup_buffer_cycle queued lastGood now dir) := by
  refine ⟨mem_cleanup_iff, ?_, ?_, ?_⟩
  · intro queued lastGood now dir u href hc
    obtain ⟨mt, _, horph⟩ := (mem_cleanup_iff queued lastGood now dir u).mp hc
    rw [orphaned, Bool.and_eq_true] at horph
    exact (scanDel_parts queued lastGood now _ horph.2).1 href
  · intro queued lastGood now dir hc
    obtain ⟨mt, _, horph⟩ := (mem_cleanup_iff queued lastGood now dir fifoName).mp hc
    rw [orphaned, Bool.and_eq_true] at horph
    exact (scanDel_parts queued lastGood now _ horph.2).2 rfl
  · intro queued lastGood now dir u hall hc
    obtain ⟨mt, hmem, horph⟩ := (mem_cleanup_iff queued lastGood now dir u).mp hc
    rw [hall mt hmem, orphaned, Bool.and_eq_true, scanDel_none] at horph
    exact absurd horph.2 (by simp)

/-- C7 witness: in a concrete cycle the only unlinked file is the old
unreferenced clip; the queued clip, the last-good clip, the named
channel, a young clip, a vanished clip, and a non-`.ts` file survive. -/
theorem C7_janitor_safety_witness :
    ("c.ts" ∈ cleanup_buffer_cycle ["a.ts"] (some "b.ts") 200
        [("a.ts", some 0), ("b.ts", some 0), ("mux.ts", some 0), ("c.ts", some 0),
          ("d.ts", none), ("e.txt", some 0), ("f.ts", some 150)]) ∧
    ("a.ts" ∉ cleanup_buffer_cycle ["a.ts"] (some "b.ts") 200
        [("a.ts", some 0), ("b.ts", some 0), ("mux.ts", some 0), ("c.ts", some 0),
          ("d.ts", none), ("e.txt", some 0), ("f.ts", some 150)]) ∧
    (fifoName ∉ cleanup_buffer_cycle ["a.ts"] (some "b.ts") 200
        [("a.ts", some 0), ("b.ts", some 0), ("mux.ts", some 0), ("c.ts", some 0),
          ("d.ts", none), ("e.txt", some 0), ("f.ts", some 150)]) ∧
    ("d.ts" ∉ cleanup_buffer_cycle ["a.ts"] (some "b.ts") 200
        [("a.ts", some 0), ("b.ts", some 0), ("mux.ts", some 0), ("c.ts", some 0),
          ("d.ts", none), ("e.txt", some 0), ("f.ts", some 150)]) :=
  ⟨(C7_janitor_safety.1 ["a.ts"] (some "b.ts") 200 _ "c.ts").mpr
      ⟨some 0, by decide, by decide⟩,
   C7_janitor_safety.2.1 ["a.ts"] (some "b.ts") 200 _ "a.ts" (by decide),
   C7_janitor_safety.2.2.1 ["a.ts"] (some "b.ts") 200 _,
   C7_janitor_safety.2.2.2 ["a.ts"] (some "b.ts") 200 _ "d.ts" (by
      intro mt hmt
      simp only [List.mem_cons, List.not_mem_nil, or_false] at hmt
      rcases hmt with h | h | h | h | h | h | h <;>
        rw [Prod.mk.injEq] at h <;>
        first
          | exact absurd h.1 (by decide)
          | exact h.2)⟩

theorem fetch_eq_surviving (body : String) (blocklist : List String) :
    fetch_m3u_urls body blocklist = survivingLines body blocklist := by
  unfold fetch_m3u_urls survivingLines
  by_cases h : blocklist.isEmpty
  · rw [if_pos h]
    symm
    apply List.filter_eq_self.mpr
    intro u _
    rw [List.isEmpty_iff] at h
    subst h
    rfl
  · rw [if_neg h]

/-- C2 counterexample: the claim says every returned string is non-empty
and does not begin with `#`.  The source filters on the raw line and
strips afterwards, so the body `" #x"` (a `#` line indented by one
space) yields the returned string `"#x"`, which begins with `#`, and the
body `" "` (a whitespace-only line) yields the returned string `""`. -/
theorem C2_counterexample :
    fetch_m3u_urls " #x" ["bad"] = ["#x"] ∧ pyStartsWith "#" "#x" = true ∧
      fetch_m3u_urls " " ["bad"] = [""] := by
  refine ⟨by decide, rfl, by decide⟩

/-- C2 (amended): every string returned by `fetch_m3u_urls` is the strip
of a raw line that — before stripping — was non-empty and did not begin
with `#` (the returned string itself may be empty or begin with `#` when
the raw line had leading whitespace), its lowercased form contains no
blocklist substring, and the returned sequence is a permutation of
exactly these surviving stripped lines. -/
theorem C2_fetch_filter_amended (body : String) (blocklist : List String)
    (out : List String) (hperm : out.Perm (fetch_m3u_urls body blocklist)) :
    (∀ u ∈ out, ∃ line, line ∈ pySplitlines body ∧ line ≠ "" ∧
        pyStartsWith "#" line = false ∧ u = pyStrip line ∧
        allNotBlocked blocklist u = true) ∧
    out.Perm (survivingLines body blocklist) := by
  constructor
  · intro u hu
    have hu' : u ∈ fetch_m3u_urls body blocklist := hperm.mem_iff.mp hu
    rw [fetch_eq_surviving] at hu'
    unfold survivingLines at hu'
    obtain ⟨humap, hblk⟩ := List.mem_filter.mp hu'
    obtain ⟨line, hline, hstrip⟩ := List.mem_map.mp humap
    obtain ⟨hmem, hcond⟩ := List.mem_filter.mp hline
    rw [Bool.and_eq_true, Bool.not_eq_true', decide_eq_true_eq] at hcond
    exact ⟨line, hmem, hcond.1, hcond.2, hstrip.symm, hblk⟩
  · rw [← fetch_eq_surviving]
    exact hperm

/-- C2 witness: the claim's own example body with blocklist `bad` keeps
exactly the two non-blocked URLs, and the theorem applies to the
source's own output with the identity permutation. -/
theorem C2_fetch_filter_amended_witness :
    survivingLines
        "http://a.example/s1\n#EXTINF:0,foo\nhttp://b.BAD.example/s2\nhttp://c.example/s3"
        ["bad"] = ["http://a.example/s1", "http://c.example/s3"] ∧
    (fetch_m3u_urls
        "http://a.example/s1\n#EXTINF:0,foo\nhttp://b.BAD.example/s2\nhttp://c.example/s3"
        ["bad"]).Perm
      (survivingLines
        "http://a.example/s1\n#EXTINF:0,foo\nhttp://b.BAD.example/s2\nhttp://c.example/s3"
        ["bad"]) :=
  ⟨by decide,
   (C2_fetch_filter_amended
      "http://a.example/s1\n#EXTINF:0,foo\nhttp://b.BAD.example/s2\nhttp://c.example/s3"
      ["bad"] _ (List.Perm.refl _)).2⟩

theorem pusher_none_repeat (content : String → List Nat) (st : QState)
    (chan : List Nat) (now : Int) (st' : QState) (l : String)
    (hget : ClipQueue.get st now = (none, st')) (hlast : st'.last_good = some l)
    (hmem : l ∈ st'.files) :
    pusherIter content st chan now = (st', chan ++ content l, .repeatedLast l) := by
  unfold pusherIter
  rw [hget]
  dsimp only
  rw [ClipQueue.last, hlast]
  dsimp only
  rw [if_pos hmem]

theorem pusher_none_gone (content : String → List Nat) (st : QState)
    (chan : List Nat) (now : Int) (st' : QState) (l : String)
    (hget : ClipQueue.get st now = (none, st')) (hlast : st'.last_good = some l)
    (hmem : l ∉ st'.files) :
    pusherIter content st chan now = (st', chan, .slept) := by
  unfold pusherIter
  rw [hget]
  dsimp only
  rw [ClipQueue.last, hlast]
  dsimp only
  rw [if_neg hmem]

theorem pusher_none_nolast (content : String → List Nat) (st : QState)
    (chan : List Nat) (now : Int) (st' : QState)
    (hget : ClipQueue.get st now = (none, st')) (hlast : st'.last_good = none) :
    pusherIter content st chan now = (st', chan, .slept) := by
  unfold pusherIter
  rw [hget]
  dsimp only
  rw [ClipQueue.last, hlast]

theorem pusher_some_stream (content : String → List Nat) (st : QState)
    (chan : List Nat) (now : Int) (st' : QState) (p : String)
    (hget : ClipQueue.get st now = (some p, st')) (hmem : p ∈ st'.files) :
    pusherIter content st chan now =
      (⟨st'.q, st'.timestamps, st'.last_good, st'.files.erase p⟩,
        chan ++ content p, .streamed p) := by
  unfold pusherIter
  rw [hget]
  dsimp only
  rw [if_pos hmem]

/-- C1 counterexample: the claim says that after the pusher has
successfully streamed a dequeued clip, every subsequent timed-out `get`
takes the REPEAT LAST transition, the sleep branch being reached only if
no clip was ever consumed.  In the source the pusher unlinks each clip
right after streaming it, so on the very next empty-queue timeout
`last_good` names a file that no longer exists and the pusher sleeps:
a concrete two-iteration run streams clip `c1` (consuming it) and then
takes the sleep branch. -/
theorem C1_counterexample :
    pusherIter (fun _ => [1]) ⟨["c1"], [("c1", 100)], none, ["c1"]⟩ [] 100
      = (⟨[], [], some "c1", []⟩, [1], .streamed "c1") ∧
    pusherIter (fun _ => [1]) ⟨[], [], some "c1", []⟩ [1] 106
      = (⟨[], [], some "c1", []⟩, [1], .slept) := by
  refine ⟨by decide, by decide⟩

/-- C1 (amended): on a timed-out `get` the REPEAT LAST transition is
taken iff `last_good` is set and its file still exists on disk, in which
case exactly the last-good bytes are appended to the channel; since a
successfully streamed clip is unlinked immediately after streaming, the
sleep-1s branch is reached both when no clip has ever been consumed and
when the last-good file has been removed (the normal successor of a
successful stream-and-unlink). -/
theorem C1_pusher_filler_amended :
    (∀ (content : String → List Nat) (st : QState) (chan : List Nat) (now : Int)
        (st' : QState) (l : String),
      ClipQueue.get st now = (none, st') → st'.last_good = some l →
      l ∈ st'.files →
      pusherIter content st chan now = (st', chan ++ content l, .repeatedLast l)) ∧
    (∀ (content : String → List Nat) (st : QState) (chan : List Nat) (now : Int)
        (st' : QState) (l : String),
      ClipQueue.get st now = (none, st') → st'.last_good = some l →
      l ∉ st'.files →
      pusherIter content st chan now = (st', chan, .slept)) ∧
    (∀ (content : String → List Nat) (st : QState) (chan : List Nat) (now : Int)
        (st' : QState),
      ClipQueue.get st now = (none, st') → st'.last_good = none →
      pusherIter content st chan now = (st', chan, .slept)) ∧
    (∀ (content : String → List Nat) (st : QState) (chan : List Nat) (now : Int)
        (st' : QState) (p : String),
      ClipQueue.get st now = (some p, st') → p ∈ st'.files →
      pusherIter content st chan now =
        (⟨st'.q, st'.timestamps, st'.last_good, st'.files.erase p⟩,
          chan ++ content p, .streamed p)) :=
  ⟨pusher_none_repeat, pusher_none_gone, pusher_none_nolast, pusher_some_stream⟩

/-- C1 witness: with the last-good file still on disk, a timed-out `get`
repeats it into the channel. -/
theorem C1_pusher_filler_amended_witness :
    pusherIter (fun _ => [7]) ⟨[], [], some "L", ["L"]⟩ [] 5
      = (⟨[], [], some "L", ["L"]⟩, [] ++ (fun _ => ([7] : List Nat)) "L",
          .repeatedLast "L") :=
  C1_pusher_filler_amended.1 (fun _ => [7]) ⟨[], [], some "L", ["L"]⟩ [] 5
    ⟨[], [], some "L", ["L"]⟩ "L" rfl rfl (by decide)

end RandomTvStream
